import Mathlib

/-!
Verification of the bulk-synchronous iterative relaxation engine of this
repository: distributed connected-components labeling (`src/bin/connected.rs`)
and PageRank (`src/bin/pagerank.rs`), each in a shuffled-join variant and a
replicated-adjacency ("shared"/broadcast) variant.

The per-iteration dataflow pipelines are embedded as pure Lean functions over
lists, following the Rust operator chains step by step.  The external
`iterate` combinator of the dataflow substrate (noir_compute, not part of this
repository) is modelled from the spec's Convergence Coordinator description:
the loop runs while the changed flag is true and the iteration budget is not
exhausted; a stop caused by the budget leaves the changed flag as the fold set
it, a stop caused by a false flag reports the flag false.  Machine `u64`
values are modelled as `Nat` (the programs never approach overflow: node ids
index a `Vec` of length N) and `f64` ranks are modelled as `ℚ`, with the
constants 0.85 and 1e-8 carried exactly.
-/

abbrev Node := Nat

/-- `edges.flat_map(|(x, y)| vec![(x, y), (y, x)])` of `connected.rs`:
undirected ingestion inserts both directed pairs. -/
def symEdges (es : List (Node × Node)) : List (Node × Node) :=
  es.flatMap (fun e => [(e.1, e.2), (e.2, e.1)])

/-- The loop state of `connected.rs` (`struct State`). -/
structure CCState where
  component : List Nat
  updated : Bool
  iteration_count : Nat
deriving DecidableEq

/-- `State::new`: `component = (0..num_nodes).collect()`, flag false, count 0. -/
def CCState.new (numNodes : Nat) : CCState :=
  ⟨List.range numNodes, false, 0⟩

/-- The stream entering the first iteration: `.map(|x| (x, x))` over the node
listing (dense ids `[0, N)`). -/
def initWorklist (n : Nat) : List (Node × Nat) :=
  (List.range n).map (fun x => (x, x))

/-- Join-strategy delta generation of `connected_components_join`:
`s.join(edges, ...).map(|(_, ((_x, component), (_, y)))| (y, component))` —
for every stream element `(x, c)` and every symmetrized edge `(x, y)`,
emit the candidate `(y, c)`. -/
def joinCandidates (esSym : List (Node × Node)) (ws : List (Node × Nat)) :
    List (Node × Nat) :=
  ws.flatMap (fun xc => (esSym.filter (fun e => e.1 == xc.1)).map (fun e => (e.2, xc.2)))

/-- The minimum candidate value targeting node `y`
(`group_by_min_element(|(x, _)| *x, |(_, c)| *c)` restricted to one group). -/
def candMin (cands : List (Node × Nat)) (y : Node) : Option Nat :=
  ((cands.filter (fun p => p.1 == y)).map (fun p => p.2)).min?

/-- `group_by_min_element(...).drop_key()`: one `(node, min candidate)` pair per
node that received at least one candidate (listed in node-id order; the
operator makes no ordering guarantee). -/
def reduceMin (n : Nat) (cands : List (Node × Nat)) : List (Node × Nat) :=
  (List.range n).filterMap (fun y => (candMin cands y).map (fun c => (y, c)))

/-- The global fold's `state.component[x as usize] = component` loop. -/
def applyChanges (comp : List Nat) (changes : List (Node × Nat)) : List Nat :=
  changes.foldl (fun c p => c.set p.1 p.2) comp

/-- One iteration of `connected_components_join`: delta generation, min
reduction, the improvement filter
(`if old_component <= component { None } else { Some((x, component)) }`),
and the fold `state.updated = state.updated || !changes.is_empty();
state.component[x] = component`.  Returns the folded state and the body's
output stream (= the filtered changes), which feeds the next iteration. -/
def ccIterJoin (n : Nat) (es : List (Node × Node)) (st : CCState)
    (ws : List (Node × Nat)) : CCState × List (Node × Nat) :=
  let cands := joinCandidates (symEdges es) ws
  let changes := (reduceMin n cands).filter
    (fun p => decide (p.2 < st.component.getD p.1 0))
  (⟨applyChanges st.component changes, st.updated || !changes.isEmpty,
    st.iteration_count⟩, changes)

/-- The loop-condition closure of `connected.rs`:
`condition = state.updated; state.updated = false; state.iteration_count += 1`. -/
def afterCond (st : CCState) : CCState :=
  ⟨st.component, false, st.iteration_count + 1⟩

/-- Modelled from the spec: the `iterate` combinator (budget enforcement of the
Convergence Coordinator, spec 4.6) is external noir_compute code, not under
`src/`.  RUNNING → RUNNING while the changed flag is true and iterations
remain (resetting the flag and bumping the count via the repository's
loop-condition closure); RUNNING → STOPPED on a false flag or on budget
exhaustion, whichever comes first, and a budget stop leaves the flag as the
fold set it. -/
def ccLoopJoin (n : Nat) (es : List (Node × Node)) :
    Nat → CCState × List (Node × Nat) → CCState × List (Node × Nat)
  | 0, p => p
  | fuel + 1, p =>
    let q := ccIterJoin n es p.1 p.2
    if q.1.updated then
      match fuel with
      | 0 => q
      | f + 1 => ccLoopJoin n es (f + 1) (afterCond q.1, q.2)
    else (afterCond q.1, q.2)

/-- The whole join-strategy run: initial state `State::new n`, initial stream
`(x, x)` per node, at most `budget` iterations. -/
def ccRunJoin (n : Nat) (es : List (Node × Node)) (budget : Nat) :
    CCState × List (Node × Nat) :=
  ccLoopJoin n es budget (CCState.new n, initWorklist n)

/-- The unconditional iteration trace of the join strategy: state and stream
entering iteration `k` (the loop-condition reset applied between rounds). -/
def ccStepN (n : Nat) (es : List (Node × Node)) : Nat → CCState × List (Node × Nat)
  | 0 => (CCState.new n, initWorklist n)
  | k + 1 =>
    let p := ccStepN n es k
    let q := ccIterJoin n es p.1 p.2
    (afterCond q.1, q.2)

/-- The state observed right after the fold of iteration `k` (0-based), before
the loop-condition closure runs: this is where the changed flag is read. -/
def ccPostFold (n : Nat) (es : List (Node × Node)) (k : Nat) : CCState :=
  (ccIterJoin n es (ccStepN n es k).1 (ccStepN n es k).2).1

/-- The replicated adjacency map of `connected_components_shared`:
`group_by_fold` over the symmetrized edge stream collects, per node, the list
of its neighbors. -/
def adjList (es : List (Node × Node)) (x : Node) : List Node :=
  ((symEdges es).filter (fun e => e.1 == x)).map (fun e => e.2)

/-- The `edges[&x]` map access of `connected_components_shared`: the hash map
holds a key for `x` exactly when some symmetrized edge starts at `x`; an
absent key makes the index operation panic, modelled as `none`. -/
def adjLookup (es : List (Node × Node)) (x : Node) : Option (List Node) :=
  if (adjList es x).isEmpty then none else some (adjList es x)

/-- Broadcast-strategy delta generation of `connected_components_shared`:
`s.flat_map(|(x, c)| edges[&x].iter().filter(|&&y| c < y).map(|&y| (y, c)))`.
`none` records that some `edges[&x]` lookup panicked. -/
def sharedCandidatesCC (es : List (Node × Node)) :
    List (Node × Nat) → Option (List (Node × Nat))
  | [] => some []
  | xc :: rest =>
    match adjLookup es xc.1, sharedCandidatesCC es rest with
    | some adj, some r =>
      some (((adj.filter (fun y => decide (xc.2 < y))).map (fun y => (y, xc.2))) ++ r)
    | _, _ => none

/-- One iteration of `connected_components_shared`: identical to the join
variant except for the delta generator. -/
def ccIterShared (n : Nat) (es : List (Node × Node)) (st : CCState)
    (ws : List (Node × Nat)) : Option (CCState × List (Node × Nat)) :=
  match sharedCandidatesCC es ws with
  | none => none
  | some cands =>
    let changes := (reduceMin n cands).filter
      (fun p => decide (p.2 < st.component.getD p.1 0))
    some (⟨applyChanges st.component changes, st.updated || !changes.isEmpty,
      st.iteration_count⟩, changes)

/-- The broadcast-strategy loop, with the same spec-modelled coordinator as
`ccLoopJoin`; `none` propagates a panicked adjacency lookup. -/
def ccLoopShared (n : Nat) (es : List (Node × Node)) :
    Nat → CCState × List (Node × Nat) → Option (CCState × List (Node × Nat))
  | 0, p => some p
  | fuel + 1, p =>
    match ccIterShared n es p.1 p.2 with
    | none => none
    | some q =>
      if q.1.updated then
        match fuel with
        | 0 => some q
        | f + 1 => ccLoopShared n es (f + 1) (afterCond q.1, q.2)
      else some (afterCond q.1, q.2)

/-- The whole broadcast-strategy run. -/
def ccRunShared (n : Nat) (es : List (Node × Node)) (budget : Nat) :
    Option (CCState × List (Node × Nat)) :=
  ccLoopShared n es budget (CCState.new n, initWorklist n)

/-- A node is connected to its label's node via the (symmetrized) input edge
relation: the reflexive-transitive closure of edge adjacency. -/
def Connected (es : List (Node × Node)) : Node → Node → Prop :=
  Relation.ReflTransGen (fun a b => (a, b) ∈ symEdges es)

/-! ## PageRank (`src/bin/pagerank.rs`) -/

/-- `const EPS: f64 = 1e-8` (exact value carried in `ℚ`). -/
def EPS : ℚ := 1 / 100000000

/-- `const DAMPENING: f64 = 0.85` (exact value carried in `ℚ`). -/
def DAMPENING : ℚ := 85 / 100

/-- A PageRank stream element `(node, prev-slot, rank)`. -/
abbrev PRItem := Node × ℚ × ℚ

/-- The PageRank adjacency relation: in `pagerank`, `group_by_fold` over the
raw (unsymmetrized) link stream; in `pagerank_shared`, a CSV fold pushing `y`
under key `x`.  Both collect, per source node, the targets in record order. -/
def prAdj (es : List (Node × Node)) (x : Node) : List Node :=
  (es.filter (fun e => e.1 == x)).map (fun e => e.2)

/-- Whether the adjacency store holds an entry for `x` (a key exists exactly
when some record has source `x`); both PageRank variants fall through
harmlessly when it does not. -/
def prAdjLookup (es : List (Node × Node)) (x : Node) : Option (List Node) :=
  if (prAdj es x).isEmpty then none else some (prAdj es x)

/-- Join-variant mass distribution of `pagerank`: the equi-join drops stream
elements without an adjacency entry; otherwise the rank is split evenly over
the out-edges (`rank / adj.len()`). -/
def prCandidatesJoin (es : List (Node × Node)) (pairs : List (Node × ℚ)) :
    List (Node × ℚ) :=
  pairs.flatMap (fun xr =>
    match prAdjLookup es xr.1 with
    | some adj => adj.map (fun y => (y, xr.2 / (adj.length : ℚ)))
    | none => [])

/-- Broadcast-variant mass distribution of `pagerank_shared`:
`if let Some(adj) = adjacency_list.get(&x) { ... } else { vec![] }`. -/
def prCandidatesShared (es : List (Node × Node)) (items : List PRItem) :
    List (Node × ℚ) :=
  items.flatMap (fun t =>
    match prAdjLookup es t.1 with
    | some adj => adj.map (fun y => (y, t.2.2 / (adj.length : ℚ)))
    | none => [])

/-- `group_by_sum(|(y, _)| *y, |(_, m)| m)`: per target node, the sum of the
inbound mass (one pair per node that received at least one candidate, listed
in node-id order; the operator makes no ordering guarantee). -/
def prSums (n : Nat) (cands : List (Node × ℚ)) : List (Node × ℚ) :=
  (List.range n).filterMap (fun y =>
    let l := (cands.filter (fun p => p.1 == y)).map (fun p => p.2)
    if l.isEmpty then none else some (y, l.sum))

/-- The `rich_map` of both PageRank variants: per element, the new rank is
`rank * DAMPENING + (1 - DAMPENING) / num_pages`, and the emitted middle slot
is `replace(&mut prev, rank)` — the operator-local `prev` carries the rank of
the previously processed element (0.0 before the first), across iterations. -/
def prRich (n : Nat) : ℚ → List (Node × ℚ) → ℚ × List PRItem
  | prev, [] => (prev, [])
  | prev, (x, s) :: rest =>
    let rank := s * DAMPENING + (1 - DAMPENING) / (n : ℚ)
    let r := prRich n rank rest
    (r.1, (x, prev, rank) :: r.2)

/-- The local fold of both PageRank variants:
`*changed = *changed || (new - old).abs() / new > EPS`, starting false. -/
def prChangedFold (out : List PRItem) : Bool :=
  out.any (fun t => decide (|t.2.2 - t.2.1| / t.2.2 > EPS))

/-- One iteration of `pagerank` (join variant): project `(x, rank)`, join with
the adjacency store, distribute, sum per target, dampen via the `rich_map`.
Returns the carried `prev` slot, the output stream, and the changed flag. -/
def prIterJoin (n : Nat) (es : List (Node × Node)) (prev : ℚ)
    (items : List PRItem) : ℚ × List PRItem × Bool :=
  let cands := prCandidatesJoin es (items.map (fun t => (t.1, t.2.2)))
  let sums := prSums n cands
  let r := prRich n prev sums
  (r.1, r.2, prChangedFold r.2)

/-- One iteration of `pagerank_shared` (broadcast variant). -/
def prIterShared (n : Nat) (es : List (Node × Node)) (prev : ℚ)
    (items : List PRItem) : ℚ × List PRItem × Bool :=
  let cands := prCandidatesShared es items
  let sums := prSums n cands
  let r := prRich n prev sums
  (r.1, r.2, prChangedFold r.2)

/-- Modelled from the spec (as for `ccLoopJoin`): the external `iterate`
combinator run for the PageRank join variant.  The loop state is the bool
`changed`, reset by the loop condition every round, so only the per-iteration
flag decides continuation; the caller collects the final output stream. -/
def prLoopJoin (n : Nat) (es : List (Node × Node)) :
    Nat → ℚ → List PRItem → List PRItem
  | 0, _, items => items
  | fuel + 1, prev, items =>
    let r := prIterJoin n es prev items
    if r.2.2 then
      match fuel with
      | 0 => r.2.1
      | f + 1 => prLoopJoin n es (f + 1) r.1 r.2.1
    else r.2.1

/-- The PageRank broadcast-variant loop. -/
def prLoopShared (n : Nat) (es : List (Node × Node)) :
    Nat → ℚ → List PRItem → List PRItem
  | 0, _, items => items
  | fuel + 1, prev, items =>
    let r := prIterShared n es prev items
    if r.2.2 then
      match fuel with
      | 0 => r.2.1
      | f + 1 => prLoopShared n es (f + 1) r.1 r.2.1
    else r.2.1

/-- The initial PageRank stream: `.map(|x| (x, 0.0, 1.0 / num_pages))`. -/
def prInit (n : Nat) : List PRItem :=
  (List.range n).map (fun x => ((x : Node), (0 : ℚ), 1 / (n : ℚ)))

/-- The whole `pagerank` (join variant) run. -/
def prRunJoin (n : Nat) (es : List (Node × Node)) (budget : Nat) : List PRItem :=
  prLoopJoin n es budget 0 (prInit n)

/-- The whole `pagerank_shared` (broadcast variant) run. -/
def prRunShared (n : Nat) (es : List (Node × Node)) (budget : Nat) : List PRItem :=
  prLoopShared n es budget 0 (prInit n)

/-! ## Helper lemmas: symmetrized edges -/

lemma mem_symEdges {es : List (Node × Node)} {a b : Node} :
    (a, b) ∈ symEdges es ↔
      ∃ e ∈ es, (e.1 = a ∧ e.2 = b) ∨ (e.1 = b ∧ e.2 = a) := by
  simp only [symEdges, List.mem_flatMap, List.mem_cons, List.mem_singleton,
    List.not_mem_nil, or_false, Prod.mk.injEq]
  constructor
  · rintro ⟨e, he, (⟨h1, h2⟩ | ⟨h1, h2⟩)⟩
    · exact ⟨e, he, Or.inl ⟨h1.symm, h2.symm⟩⟩
    · exact ⟨e, he, Or.inr ⟨h2.symm, h1.symm⟩⟩
  · rintro ⟨e, he, (⟨h1, h2⟩ | ⟨h1, h2⟩)⟩
    · exact ⟨e, he, Or.inl ⟨h1.symm, h2.symm⟩⟩
    · exact ⟨e, he, Or.inr ⟨h2.symm, h1.symm⟩⟩

lemma mem_symEdges_swap {es : List (Node × Node)} {a b : Node}
    (h : (a, b) ∈ symEdges es) : (b, a) ∈ symEdges es := by
  rw [mem_symEdges] at h ⊢
  obtain ⟨e, he, hm⟩ := h
  exact ⟨e, he, hm.symm⟩

lemma symEdges_both {es : List (Node × Node)} {u v : Node} (h : (u, v) ∈ es) :
    (u, v) ∈ symEdges es ∧ (v, u) ∈ symEdges es := by
  constructor
  · exact mem_symEdges.2 ⟨(u, v), h, Or.inl ⟨rfl, rfl⟩⟩
  · exact mem_symEdges.2 ⟨(u, v), h, Or.inr ⟨rfl, rfl⟩⟩

lemma symEdges_bound {n : Nat} {es : List (Node × Node)}
    (hwf : ∀ e ∈ es, e.1 < n ∧ e.2 < n) {a b : Node} (h : (a, b) ∈ symEdges es) :
    a < n ∧ b < n := by
  rw [mem_symEdges] at h
  obtain ⟨e, he, (⟨h1, h2⟩ | ⟨h1, h2⟩)⟩ := h
  · exact ⟨h1 ▸ (hwf e he).1, h2 ▸ (hwf e he).2⟩
  · exact ⟨h2 ▸ (hwf e he).2, h1 ▸ (hwf e he).1⟩

/-! ## Helper lemmas: minima of candidate lists -/

lemma natMin?_le {l : List Nat} {m a : Nat} (hm : l.min? = some m) (ha : a ∈ l) :
    m ≤ a :=
  (List.min?_eq_some_iff (α := Nat) (le_refl) (fun a b => min_choice a b)
    (fun _ _ _ => le_min_iff) |>.1 hm).2 a ha

lemma natMin?_mem {l : List Nat} {m : Nat} (hm : l.min? = some m) : m ∈ l :=
  List.min?_mem (fun a b => min_choice a b) hm

lemma candMin_mem {cands : List (Node × Nat)} {y : Node} {c : Nat}
    (h : candMin cands y = some c) : (y, c) ∈ cands := by
  have hmem := natMin?_mem h
  simp only [List.mem_map, List.mem_filter, beq_iff_eq] at hmem
  obtain ⟨p, ⟨hp, hp1⟩, hp2⟩ := hmem
  have : (y, c) = p := by
    rw [Prod.ext_iff]
    exact ⟨hp1.symm, hp2.symm⟩
  rwa [this]

lemma candMin_le {cands : List (Node × Nat)} {y : Node} {c : Nat}
    (h : (y, c) ∈ cands) : ∃ m, candMin cands y = some m ∧ m ≤ c := by
  have hc : c ∈ (cands.filter (fun p => p.1 == y)).map (fun p => p.2) := by
    simp only [List.mem_map, List.mem_filter, beq_iff_eq]
    exact ⟨(y, c), ⟨h, rfl⟩, rfl⟩
  cases hm : candMin cands y with
  | none =>
    rw [candMin, List.min?_eq_none_iff] at hm
    rw [hm] at hc
    cases hc
  | some m => exact ⟨m, rfl, natMin?_le hm hc⟩

/-! ## Helper lemmas: the change list and the fold -/

/-- The change produced for node `y` by one iteration: the reduced minimum if
it passes the improvement filter. -/
def changeFor (cands : List (Node × Nat)) (comp : List Nat) (y : Node) :
    Option (Node × Nat) :=
  match candMin cands y with
  | some c => if c < comp.getD y 0 then some (y, c) else none
  | none => none

/-- The filtered change batch of one iteration, as a filterMap over node ids. -/
def chList (n : Nat) (cands : List (Node × Nat)) (comp : List Nat) :
    List (Node × Nat) :=
  (List.range n).filterMap (changeFor cands comp)

lemma changes_eq (n : Nat) (cands : List (Node × Nat)) (comp : List Nat) :
    (reduceMin n cands).filter (fun p => decide (p.2 < comp.getD p.1 0))
      = chList n cands comp := by
  rw [reduceMin, chList, List.filter_filterMap]
  refine List.filterMap_congr (fun y _ => ?_)
  cases h : candMin cands y with
  | none => simp [changeFor, h, Option.filter]
  | some c =>
    by_cases hlt : c < comp.getD y 0 <;>
      simp [changeFor, h, Option.filter, hlt]

lemma mem_chList {n : Nat} {cands : List (Node × Nat)} {comp : List Nat}
    {y : Node} {c : Nat} :
    (y, c) ∈ chList n cands comp ↔
      y < n ∧ candMin cands y = some c ∧ c < comp.getD y 0 := by
  simp only [chList, List.mem_filterMap, List.mem_range]
  constructor
  · rintro ⟨a, ha, heq⟩
    cases h : candMin cands a with
    | none => simp [changeFor, h] at heq
    | some c' =>
      by_cases hlt : c' < comp.getD a 0
      · simp only [changeFor, h, if_pos hlt, Option.some.injEq, Prod.mk.injEq] at heq
        obtain ⟨rfl, rfl⟩ := heq
        exact ⟨ha, h, hlt⟩
      · simp only [changeFor, h] at heq
        rw [if_neg hlt] at heq
        cases heq
  · rintro ⟨hy, hmin, hlt⟩
    refine ⟨y, hy, ?_⟩
    simp only [changeFor, hmin]
    rw [if_pos hlt]

lemma chList_fst {n : Nat} {cands : List (Node × Nat)} {comp : List Nat}
    {p : Node × Nat} (h : p ∈ chList n cands comp) :
    p.1 < n ∧ candMin cands p.1 = some p.2 ∧ p.2 < comp.getD p.1 0 := by
  obtain ⟨y, c⟩ := p
  exact mem_chList.1 h

lemma changeFor_fst {cands : List (Node × Nat)} {comp : List Nat} {y : Node}
    {p : Node × Nat} (h : changeFor cands comp y = some p) : p.1 = y := by
  cases hm : candMin cands y with
  | none => simp [changeFor, hm] at h
  | some c =>
    by_cases hlt : c < comp.getD y 0
    · simp only [changeFor, hm, if_pos hlt, Option.some.injEq] at h
      rw [← h]
    · simp only [changeFor, hm] at h
      rw [if_neg hlt] at h
      cases h

lemma filterMap_keys_sublist {f : Nat → Option (Node × Nat)}
    (hf : ∀ y p, f y = some p → p.1 = y) :
    ∀ l : List Nat, List.Sublist ((l.filterMap f).map Prod.fst) l := by
  intro l
  induction l with
  | nil => simp
  | cons a l ih =>
    cases h : f a with
    | none =>
      rw [List.filterMap_cons, h]
      exact ih.cons a
    | some p =>
      rw [List.filterMap_cons, h, List.map_cons, hf a p h]
      exact ih.cons₂ a

lemma chList_keys_nodup (n : Nat) (cands : List (Node × Nat)) (comp : List Nat) :
    ((chList n cands comp).map Prod.fst).Nodup :=
  ((filterMap_keys_sublist (fun _ _ h => changeFor_fst h)) (List.range n)).nodup
    (List.nodup_range n)

lemma applyChanges_cons (comp : List Nat) (p : Node × Nat)
    (rest : List (Node × Nat)) :
    applyChanges comp (p :: rest) = applyChanges (comp.set p.1 p.2) rest := rfl

lemma applyChanges_length (changes : List (Node × Nat)) :
    ∀ comp : List Nat, (applyChanges comp changes).length = comp.length := by
  induction changes with
  | nil => intro comp; rfl
  | cons p rest ih =>
    intro comp
    rw [applyChanges_cons, ih, List.length_set]

lemma getD_set_ne {l : List Nat} {i j : Nat} {a : Nat} (h : i ≠ j) :
    (l.set i a).getD j 0 = l.getD j 0 := by
  rw [List.getD_eq_getElem?_getD, List.getD_eq_getElem?_getD,
    List.getElem?_set_ne h]

lemma getD_set_self {l : List Nat} {i : Nat} {a : Nat} (h : i < l.length) :
    (l.set i a).getD i 0 = a := by
  rw [List.getD_eq_getElem?_getD, List.getElem?_set_self h]
  rfl

lemma applyChanges_getD_notMem {changes : List (Node × Nat)} {y : Node}
    (h : ∀ p ∈ changes, p.1 ≠ y) :
    ∀ comp : List Nat, (applyChanges comp changes).getD y 0 = comp.getD y 0 := by
  induction changes with
  | nil => intro comp; rfl
  | cons p rest ih =>
    intro comp
    rw [applyChanges_cons, ih (fun q hq => h q (List.mem_cons_of_mem p hq)),
      getD_set_ne (h p (List.mem_cons_self p rest))]

lemma applyChanges_getD_mem {changes : List (Node × Nat)} {y : Node} {c : Nat} :
    ∀ comp : List Nat, (changes.map Prod.fst).Nodup → (y, c) ∈ changes →
      y < comp.length → (applyChanges comp changes).getD y 0 = c := by
  induction changes with
  | nil => intro _ _ hm; cases hm
  | cons p rest ih =>
    intro comp hnd hm hy
    rw [List.map_cons, List.nodup_cons] at hnd
    rcases List.mem_cons.1 hm with heq | hm'
    · have hp1 : p.1 = y := by rw [← heq]
      have hnot : ∀ q ∈ rest, q.1 ≠ y := by
        intro q hq hqy
        exact hnd.1 (by rw [hp1, ← hqy]; exact List.mem_map_of_mem Prod.fst hq)
      rw [applyChanges_cons, applyChanges_getD_notMem hnot, ← heq]
      exact getD_set_self hy
    · rw [applyChanges_cons]
      exact ih (comp.set p.1 p.2) hnd.2 hm' (by rwa [List.length_set])

lemma applyChanges_chList_getD_le (n : Nat) (cands : List (Node × Nat))
    (comp : List Nat) (i : Nat) :
    (applyChanges comp (chList n cands comp)).getD i 0 ≤ comp.getD i 0 := by
  by_cases hmem : ∃ p ∈ chList n cands comp, p.1 = i
  · obtain ⟨⟨y, c⟩, hp, rfl⟩ := hmem
    have hc := mem_chList.1 hp
    by_cases hy : y < comp.length
    · rw [applyChanges_getD_mem comp (chList_keys_nodup n cands comp) hp hy]
      exact le_of_lt hc.2.2
    · exact absurd hc.2.2 (by rw [List.getD_eq_default _ _ (le_of_not_lt hy)]; omega)
  · rw [applyChanges_getD_notMem (fun p hp hpi => hmem ⟨p, hp, hpi⟩)]

/-- `ccIterJoin` written through `chList`. -/
lemma ccIterJoin_eq (n : Nat) (es : List (Node × Node)) (st : CCState)
    (ws : List (Node × Nat)) :
    ccIterJoin n es st ws =
      (⟨applyChanges st.component
          (chList n (joinCandidates (symEdges es) ws) st.component),
        st.updated ||
          !(chList n (joinCandidates (symEdges es) ws) st.component).isEmpty,
        st.iteration_count⟩,
       chList n (joinCandidates (symEdges es) ws) st.component) := by
  rw [ccIterJoin]
  simp only [changes_eq]

lemma ccIterJoin_length (n : Nat) (es : List (Node × Node)) (st : CCState)
    (ws : List (Node × Nat)) :
    (ccIterJoin n es st ws).1.component.length = st.component.length := by
  rw [ccIterJoin_eq]
  exact applyChanges_length _ _

lemma ccIterJoin_mono (n : Nat) (es : List (Node × Node)) (st : CCState)
    (ws : List (Node × Nat)) (i : Nat) :
    (ccIterJoin n es st ws).1.component.getD i 0 ≤ st.component.getD i 0 := by
  rw [ccIterJoin_eq]
  exact applyChanges_chList_getD_le n _ st.component i

/-- Membership in the join-strategy candidate batch. -/
lemma mem_joinCandidates {esSym : List (Node × Node)} {ws : List (Node × Nat)}
    {y : Node} {c : Nat} :
    (y, c) ∈ joinCandidates esSym ws ↔ ∃ x, (x, c) ∈ ws ∧ (x, y) ∈ esSym := by
  simp only [joinCandidates, List.mem_flatMap, List.mem_map, List.mem_filter,
    beq_iff_eq, Prod.mk.injEq]
  constructor
  · rintro ⟨xc, hxc, e, ⟨he, hex⟩, hey, hc⟩
    refine ⟨xc.1, ?_, ?_⟩
    · have hxce : xc = (xc.1, c) := by rw [← hc]
      rwa [← hxce]
    · have hee : e = (xc.1, y) := by
        rw [Prod.ext_iff]
        exact ⟨hex, hey⟩
      rwa [← hee]
  · rintro ⟨x, hxc, hxy⟩
    exact ⟨(x, c), hxc, (x, y), ⟨hxy, rfl⟩, rfl, rfl⟩

/-! ## The label-propagation invariant (join strategy) -/

/-- Well-formed input: edge endpoints lie in `[0, n)` (the spec treats
endpoints outside the node range as a fatal configuration error). -/
abbrev WF (n : Nat) (es : List (Node × Node)) : Prop :=
  ∀ e ∈ es, e.1 < n ∧ e.2 < n

/-- Invariant carried by the join-strategy loop, on a (state, stream) pair:
the label vector has length `n`; each label is at most the node id and is
connected to its node; each stream element records its node's current label;
and every node's current label has either already been offered to each
neighbor or is still pending in the stream. -/
def CCInv (n : Nat) (es : List (Node × Node)) (p : CCState × List (Node × Nat)) :
    Prop :=
  p.1.component.length = n ∧
  (∀ i, i < n →
    p.1.component.getD i 0 ≤ i ∧ Connected es i (p.1.component.getD i 0)) ∧
  (∀ w ∈ p.2, w.1 < n ∧ p.1.component.getD w.1 0 = w.2) ∧
  (∀ a b, (a, b) ∈ symEdges es →
    p.1.component.getD b 0 ≤ p.1.component.getD a 0 ∨
      (a, p.1.component.getD a 0) ∈ p.2)

lemma getD_range {n i : Nat} (h : i < n) : (List.range n).getD i 0 = i := by
  rw [List.getD_eq_getElem?_getD, List.getElem?_range h]
  rfl

lemma mem_initWorklist {n : Nat} {w : Node × Nat} :
    w ∈ initWorklist n ↔ w.1 < n ∧ w.2 = w.1 := by
  simp only [initWorklist, List.mem_map, List.mem_range]
  constructor
  · rintro ⟨x, hx, rfl⟩
    exact ⟨hx, rfl⟩
  · rintro ⟨h1, h2⟩
    exact ⟨w.1, h1, by rw [Prod.ext_iff]; exact ⟨rfl, h2.symm⟩⟩

lemma inv_init {n : Nat} {es : List (Node × Node)} (hwf : WF n es) :
    CCInv n es (CCState.new n, initWorklist n) := by
  refine ⟨List.length_range n, ?_, ?_, ?_⟩
  · intro i hi
    rw [CCState.new, getD_range hi]
    exact ⟨le_refl i, Relation.ReflTransGen.refl⟩
  · intro w hw
    obtain ⟨h1, h2⟩ := mem_initWorklist.1 hw
    rw [CCState.new, getD_range h1]
    exact ⟨h1, h2.symm⟩
  · intro a b hab
    obtain ⟨ha, _⟩ := symEdges_bound hwf hab
    right
    rw [CCState.new, getD_range ha]
    exact mem_initWorklist.2 ⟨ha, rfl⟩

lemma inv_step {n : Nat} {es : List (Node × Node)} (hwf : WF n es)
    {p : CCState × List (Node × Nat)} (hInv : CCInv n es p) :
    CCInv n es (ccIterJoin n es p.1 p.2) := by
  obtain ⟨hlen, hlab, hws, hpend⟩ := hInv
  set comp := p.1.component with hcomp
  set cands := joinCandidates (symEdges es) p.2 with hcands
  set chg := chList n cands comp with hchg
  have hkeys := chList_keys_nodup n cands comp
  have hcomp' : (ccIterJoin n es p.1 p.2).1.component = applyChanges comp chg := by
    rw [ccIterJoin_eq]
  have hchg' : (ccIterJoin n es p.1 p.2).2 = chg := by
    rw [ccIterJoin_eq]
  have hgetD : ∀ y c, (y, c) ∈ chg →
      (applyChanges comp chg).getD y 0 = c := by
    intro y c hm
    exact applyChanges_getD_mem comp hkeys hm
      (by rw [hlen]; exact (mem_chList.1 hm).1)
  have hsame : ∀ i, (∀ c, (i, c) ∉ chg) →
      (applyChanges comp chg).getD i 0 = comp.getD i 0 := by
    intro i hni
    refine applyChanges_getD_notMem ?_ comp
    intro q hq hqi
    have hq1 := chList_fst hq
    exact hni q.2 (by rw [← hqi]; rwa [show ((q.1 : Node), q.2) = q from rfl])
  have hmono : ∀ i, (applyChanges comp chg).getD i 0 ≤ comp.getD i 0 :=
    fun i => applyChanges_chList_getD_le n cands comp i
  rw [CCInv, hcomp', hchg']
  refine ⟨by rw [applyChanges_length, hlen], ?_, ?_, ?_⟩
  · intro i hi
    by_cases hc : ∃ c, (i, c) ∈ chg
    · obtain ⟨c, hc⟩ := hc
      rw [hgetD i c hc]
      obtain ⟨-, hmin, hlt⟩ := mem_chList.1 hc
      constructor
      · exact le_trans (le_of_lt hlt) (hlab i hi).1
      · obtain ⟨x, hxw, hxi⟩ := mem_joinCandidates.1 (candMin_mem hmin)
        obtain ⟨hxn, hxc⟩ := hws _ hxw
        have h1 : Connected es i x :=
          Relation.ReflTransGen.single (mem_symEdges_swap hxi)
        have hxc' : comp.getD x 0 = c := hxc
        have h2 : Connected es x c := by
          rw [← hxc']
          exact (hlab x hxn).2
        exact h1.trans h2
    · rw [hsame i (fun c hc' => hc ⟨c, hc'⟩)]
      exact hlab i hi
  · intro w hw
    have h1 := chList_fst hw
    refine ⟨h1.1, ?_⟩
    have : ((w.1 : Node), w.2) = w := rfl
    rw [hgetD w.1 w.2 (by rwa [this])]
  · intro a b hab
    obtain ⟨ha, hb⟩ := symEdges_bound hwf hab
    by_cases hc : ∃ c, (a, c) ∈ chg
    · obtain ⟨c, hc⟩ := hc
      right
      rw [hgetD a c hc]
      exact hc
    · have ha' : (applyChanges comp chg).getD a 0 = comp.getD a 0 :=
        hsame a (fun c hc' => hc ⟨c, hc'⟩)
      left
      rw [ha']
      rcases hpend a b hab with hle | hpw
      · exact le_trans (hmono b) hle
      · have hcand : (b, comp.getD a 0) ∈ cands :=
          mem_joinCandidates.2 ⟨a, hpw, hab⟩
        obtain ⟨m, hm, hmle⟩ := candMin_le hcand
        by_cases hmlt : m < comp.getD b 0
        · have hbm : (b, m) ∈ chg := mem_chList.2 ⟨hb, hm, hmlt⟩
          rw [hgetD b m hbm]
          exact hmle
        · exact le_trans (hmono b) (le_trans (le_of_not_lt hmlt) hmle)

/-- If an iteration produces no changes, every node's label is already at most
each of its in-neighbors' labels. -/
lemma edgewise_of_no_changes {n : Nat} {es : List (Node × Node)} (hwf : WF n es)
    {p : CCState × List (Node × Nat)} (hInv : CCInv n es p)
    (hchg : (ccIterJoin n es p.1 p.2).2 = []) :
    ∀ a b, (a, b) ∈ symEdges es →
      p.1.component.getD b 0 ≤ p.1.component.getD a 0 := by
  intro a b hab
  have hstep := (inv_step hwf hInv).2.2.2 a b hab
  rw [hchg] at hstep
  have hcomp' : (ccIterJoin n es p.1 p.2).1.component = p.1.component := by
    rw [ccIterJoin_eq]
    have h2 : (ccIterJoin n es p.1 p.2).2
        = chList n (joinCandidates (symEdges es) p.2) p.1.component := by
      rw [ccIterJoin_eq]
    rw [← h2, hchg]
    rfl
  rw [hcomp'] at hstep
  rcases hstep with h | h
  · exact h
  · cases h

lemma connected_symm {es : List (Node × Node)} {u v : Node}
    (h : Connected es u v) : Connected es v u :=
  Relation.ReflTransGen.symmetric (fun _ _ hab => mem_symEdges_swap hab) h

/-- Labels are constant along connected components once edgewise stable. -/
lemma getD_const_of_edgewise {es : List (Node × Node)} {comp : List Nat}
    (hq : ∀ a b, (a, b) ∈ symEdges es → comp.getD b 0 ≤ comp.getD a 0)
    {u v : Node} (h : Connected es u v) : comp.getD u 0 = comp.getD v 0 := by
  induction h with
  | refl => rfl
  | tail _ hbc ih =>
    exact ih.trans (le_antisymm (hq _ _ (mem_symEdges_swap hbc)) (hq _ _ hbc))

/-- The equivalence-class property of a quiescent label vector. -/
lemma labels_iff {n : Nat} {es : List (Node × Node)} {comp : List Nat}
    (hq : ∀ a b, (a, b) ∈ symEdges es → comp.getD b 0 ≤ comp.getD a 0)
    (hcon : ∀ i, i < n → Connected es i (comp.getD i 0)) {u v : Node}
    (hu : u < n) (hv : v < n) :
    comp.getD u 0 = comp.getD v 0 ↔ Connected es u v := by
  constructor
  · intro h
    have h1 := hcon u hu
    have h2 := hcon v hv
    rw [h] at h1
    exact h1.trans (connected_symm h2)
  · exact getD_const_of_edgewise hq

lemma ccLoopJoin_one (n : Nat) (es : List (Node × Node))
    (p : CCState × List (Node × Nat)) :
    ccLoopJoin n es 1 p =
      if (ccIterJoin n es p.1 p.2).1.updated then ccIterJoin n es p.1 p.2
      else (afterCond (ccIterJoin n es p.1 p.2).1, (ccIterJoin n es p.1 p.2).2) := by
  rfl

lemma ccLoopJoin_two (n : Nat) (es : List (Node × Node)) (f : Nat)
    (p : CCState × List (Node × Nat)) :
    ccLoopJoin n es (f + 2) p =
      if (ccIterJoin n es p.1 p.2).1.updated then
        ccLoopJoin n es (f + 1)
          (afterCond (ccIterJoin n es p.1 p.2).1, (ccIterJoin n es p.1 p.2).2)
      else (afterCond (ccIterJoin n es p.1 p.2).1, (ccIterJoin n es p.1 p.2).2) := by
  rfl

/-- When the fold leaves the flag false, the body's output was empty. -/
lemma changes_nil_of_not_updated {n : Nat} {es : List (Node × Node)}
    {p : CCState × List (Node × Nat)} (hin : p.1.updated = false)
    (hout : (ccIterJoin n es p.1 p.2).1.updated = false) :
    (ccIterJoin n es p.1 p.2).2 = [] := by
  rw [ccIterJoin_eq] at hout ⊢
  simp only [hin, Bool.false_or, Bool.not_eq_true'] at hout
  simpa using hout

/-- Empty changes leave the label vector untouched. -/
lemma component_eq_of_changes_nil {n : Nat} {es : List (Node × Node)}
    {p : CCState × List (Node × Nat)}
    (hnil : (ccIterJoin n es p.1 p.2).2 = []) :
    (ccIterJoin n es p.1 p.2).1.component = p.1.component := by
  rw [ccIterJoin_eq]
  have h2 : (ccIterJoin n es p.1 p.2).2
      = chList n (joinCandidates (symEdges es) p.2) p.1.component := by
    rw [ccIterJoin_eq]
  rw [← h2, hnil]
  rfl

/-- A run that halts with the changed flag false halted at a quiescent state:
the invariant holds, labels are edgewise stable, and the final output stream
is empty. -/
lemma ccLoopJoin_converged {n : Nat} {es : List (Node × Node)} (hwf : WF n es) :
    ∀ fuel (p : CCState × List (Node × Nat)), CCInv n es p →
      p.1.updated = false → 0 < fuel →
      (ccLoopJoin n es fuel p).1.updated = false →
      CCInv n es (ccLoopJoin n es fuel p) ∧
        (∀ a b, (a, b) ∈ symEdges es →
          (ccLoopJoin n es fuel p).1.component.getD b 0 ≤
            (ccLoopJoin n es fuel p).1.component.getD a 0) ∧
        (ccLoopJoin n es fuel p).2 = [] := by
  intro fuel
  induction fuel with
  | zero => intro p _ _ h0; cases h0
  | succ f ih =>
    intro p hInv hin _ hstop
    cases hup : (ccIterJoin n es p.1 p.2).1.updated with
    | false =>
      have hred : ccLoopJoin n es (f + 1) p =
          (afterCond (ccIterJoin n es p.1 p.2).1, (ccIterJoin n es p.1 p.2).2) := by
        cases f with
        | zero =>
          rw [ccLoopJoin_one, if_neg (by rw [hup]; exact Bool.false_ne_true)]
        | succ f' =>
          rw [ccLoopJoin_two, if_neg (by rw [hup]; exact Bool.false_ne_true)]
      rw [hred]
      have hnil := changes_nil_of_not_updated hin hup
      have hedge := edgewise_of_no_changes hwf hInv hnil
      have hcomp' := component_eq_of_changes_nil hnil
      refine ⟨?_, ?_, hnil⟩
      · have hstep := inv_step hwf hInv
        rw [CCInv] at hstep ⊢
        exact hstep
      · intro a b hab
        show (ccIterJoin n es p.1 p.2).1.component.getD b 0 ≤
          (ccIterJoin n es p.1 p.2).1.component.getD a 0
        rw [hcomp']
        exact hedge a b hab
    | true =>
      cases f with
      | zero =>
        have hred : ccLoopJoin n es 1 p = ccIterJoin n es p.1 p.2 := by
          rw [ccLoopJoin_one, if_pos hup]
        rw [hred, hup] at hstop
        cases hstop
      | succ f' =>
        have hred : ccLoopJoin n es (f' + 2) p = ccLoopJoin n es (f' + 1)
            (afterCond (ccIterJoin n es p.1 p.2).1, (ccIterJoin n es p.1 p.2).2) := by
          rw [ccLoopJoin_two, if_pos hup]
        rw [hred] at hstop ⊢
        have hInv' : CCInv n es
            (afterCond (ccIterJoin n es p.1 p.2).1, (ccIterJoin n es p.1 p.2).2) := by
          have hstep := inv_step hwf hInv
          rw [CCInv] at hstep ⊢
          exact hstep
        exact ih _ hInv' rfl (Nat.succ_pos f') hstop

/-- C4 (amended): when the join-strategy run halts because the changed flag
was false (a genuine fixpoint, rather than by exhausting the iteration
budget), two nodes of `[0, N)` carry the same label exactly when they are
connected in the (symmetrized) input edge relation. -/
theorem c4_amended_labels {n B : Nat} {es : List (Node × Node)}
    (hwf : WF n es) (hB : 0 < B)
    (hstop : (ccRunJoin n es B).1.updated = false) :
    ∀ u v, u < n → v < n →
      ((ccRunJoin n es B).1.component.getD u 0
          = (ccRunJoin n es B).1.component.getD v 0 ↔ Connected es u v) := by
  obtain ⟨hInv, hq, -⟩ :=
    ccLoopJoin_converged hwf B (CCState.new n, initWorklist n)
      (inv_init hwf) rfl hB hstop
  intro u v hu hv
  exact labels_iff hq (fun i hi => (hInv.2.1 i hi).2) hu hv

/-- C4 counterexample: with the iteration budget set to 1 on the diameter-3
path over 4 nodes, the loop reaches STOPPED (budget exhausted) with labels
`[0, 0, 1, 2]`; nodes 1 and 2 are connected in the input edge relation but
carry different labels, so the claimed equivalence-class property fails at a
STOPPED state that was reached through the budget. -/
theorem c4_counterexample :
    (ccRunJoin 4 [(0, 1), (1, 2), (2, 3)] 1).1.component = [0, 0, 1, 2] ∧
    Connected [(0, 1), (1, 2), (2, 3)] 1 2 ∧
    (ccRunJoin 4 [(0, 1), (1, 2), (2, 3)] 1).1.component.getD 1 0
      ≠ (ccRunJoin 4 [(0, 1), (1, 2), (2, 3)] 1).1.component.getD 2 0 :=
  ⟨by decide, Relation.ReflTransGen.single (by decide), by decide⟩

/-- C4 witness: the two-disjoint-edges scenario `(0,1)`, `(2,3)` over 4 nodes
converges (flag false) within budget 2, the amended theorem applies, and the
final labels are `[0, 0, 2, 2]`. -/
theorem c4_witness :
    WF 4 [(0, 1), (2, 3)] ∧ 0 < 2 ∧
    (ccRunJoin 4 [(0, 1), (2, 3)] 2).1.updated = false ∧
    (ccRunJoin 4 [(0, 1), (2, 3)] 2).1.component = [0, 0, 2, 2] ∧
    (∀ u v, u < 4 → v < 4 →
      ((ccRunJoin 4 [(0, 1), (2, 3)] 2).1.component.getD u 0
          = (ccRunJoin 4 [(0, 1), (2, 3)] 2).1.component.getD v 0
        ↔ Connected [(0, 1), (2, 3)] u v)) :=
  ⟨by decide, by decide, by decide, by decide,
    c4_amended_labels (by decide) (by decide) (by decide)⟩

/-! ## Trace lemmas for the join strategy -/

lemma ccStepN_updated (n : Nat) (es : List (Node × Node)) (k : Nat) :
    (ccStepN n es k).1.updated = false := by
  cases k with
  | zero => rfl
  | succ k => rfl

lemma ccStepN_succ (n : Nat) (es : List (Node × Node)) (k : Nat) :
    ccStepN n es (k + 1) =
      (afterCond (ccIterJoin n es (ccStepN n es k).1 (ccStepN n es k).2).1,
       (ccIterJoin n es (ccStepN n es k).1 (ccStepN n es k).2).2) := rfl

lemma ccStepN_length (n : Nat) (es : List (Node × Node)) (k : Nat) :
    (ccStepN n es k).1.component.length = n := by
  induction k with
  | zero => exact List.length_range n
  | succ k ih =>
    rw [ccStepN_succ]
    show (ccIterJoin n es (ccStepN n es k).1 (ccStepN n es k).2).1.component.length = n
    rw [ccIterJoin_length]
    exact ih

/-- C5: the improvement filter emits a (node, value) change only when the
value is strictly below the node's label in the start-of-iteration snapshot,
and consequently every node's label is non-increasing from each iteration to
the next along the trace. -/
theorem c5_filter_monotone :
    (∀ (n : Nat) (es : List (Node × Node)) (st : CCState)
        (ws : List (Node × Nat)) (y : Node) (c : Nat),
      (y, c) ∈ (ccIterJoin n es st ws).2 → c < st.component.getD y 0) ∧
    (∀ (n : Nat) (es : List (Node × Node)) (k i : Nat),
      (ccStepN n es (k + 1)).1.component.getD i 0
        ≤ (ccStepN n es k).1.component.getD i 0) := by
  constructor
  · intro n es st ws y c h
    rw [ccIterJoin_eq] at h
    exact (mem_chList.1 h).2.2
  · intro n es k i
    rw [ccStepN_succ]
    show (ccIterJoin n es (ccStepN n es k).1 (ccStepN n es k).2).1.component.getD i 0
      ≤ (ccStepN n es k).1.component.getD i 0
    exact ccIterJoin_mono n es (ccStepN n es k).1 (ccStepN n es k).2 i

/-- C5 witness: at the first iteration of the diameter-3 path, the filter
emits `(1, 0)`, and indeed `0 < 1`, node 1's label in the snapshot; and node
1's label does not increase from iteration 0 to iteration 1. -/
theorem c5_witness :
    ((1, 0) ∈ (ccIterJoin 4 [(0, 1), (1, 2), (2, 3)] (CCState.new 4)
        (initWorklist 4)).2) ∧
    0 < (CCState.new 4).component.getD 1 0 ∧
    (ccStepN 4 [(0, 1), (1, 2), (2, 3)] 1).1.component.getD 1 0
      ≤ (ccStepN 4 [(0, 1), (1, 2), (2, 3)] 0).1.component.getD 1 0 :=
  ⟨by decide,
    c5_filter_monotone.1 4 [(0, 1), (1, 2), (2, 3)] (CCState.new 4)
      (initWorklist 4) 1 0 (by decide),
    c5_filter_monotone.2 4 [(0, 1), (1, 2), (2, 3)] 0 1⟩

/-- C6: the changed flag enters every iteration false (reset by the loop
condition, false initially), and right after the fold of iteration `k` it is
true exactly when the fold altered the label vector. -/
theorem c6_changed_flag :
    (∀ (n : Nat) (es : List (Node × Node)) (k : Nat),
      (ccStepN n es k).1.updated = false) ∧
    (∀ (n : Nat) (es : List (Node × Node)) (k : Nat),
      (ccPostFold n es k).updated = true ↔
        (ccPostFold n es k).component ≠ (ccStepN n es k).1.component) := by
  refine ⟨ccStepN_updated, ?_⟩
  intro n es k
  constructor
  · intro hup heq
    rw [ccPostFold, ccIterJoin_eq] at hup
    dsimp only at hup
    rw [ccStepN_updated, Bool.false_or] at hup
    cases hc : chList n (joinCandidates (symEdges es) (ccStepN n es k).2)
        (ccStepN n es k).1.component with
    | nil => rw [hc] at hup; cases hup
    | cons hd tl =>
      have hmem : hd ∈ chList n
          (joinCandidates (symEdges es) (ccStepN n es k).2)
          (ccStepN n es k).1.component := by
        rw [hc]
        exact List.mem_cons_self hd tl
      have hfacts := chList_fst hmem
      have hget : (ccPostFold n es k).component.getD hd.1 0 = hd.2 := by
        rw [ccPostFold, ccIterJoin_eq]
        exact applyChanges_getD_mem (ccStepN n es k).1.component
          (chList_keys_nodup n _ (ccStepN n es k).1.component) hmem
          (by rw [ccStepN_length]; exact hfacts.1)
      rw [heq] at hget
      rw [hget] at hfacts
      exact absurd hfacts.2.2 (lt_irrefl hd.2)
  · intro hne
    by_contra hup
    have hup' : (ccPostFold n es k).updated = false := Bool.eq_false_iff.2 hup
    have hnil := changes_nil_of_not_updated (ccStepN_updated n es k) hup'
    exact hne (component_eq_of_changes_nil hnil)

/-- A run that halts with the flag false leaves an empty output stream (the
last executed iteration produced no changes). -/
lemma ccLoopJoin_ws_nil {n : Nat} {es : List (Node × Node)} :
    ∀ fuel (p : CCState × List (Node × Nat)), p.1.updated = false → 0 < fuel →
      (ccLoopJoin n es fuel p).1.updated = false →
      (ccLoopJoin n es fuel p).2 = [] := by
  intro fuel
  induction fuel with
  | zero => intro p _ h0; cases h0
  | succ f ih =>
    intro p hin _ hstop
    cases hup : (ccIterJoin n es p.1 p.2).1.updated with
    | false =>
      have hred : ccLoopJoin n es (f + 1) p =
          (afterCond (ccIterJoin n es p.1 p.2).1, (ccIterJoin n es p.1 p.2).2) := by
        cases f with
        | zero =>
          rw [ccLoopJoin_one, if_neg (by rw [hup]; exact Bool.false_ne_true)]
        | succ f' =>
          rw [ccLoopJoin_two, if_neg (by rw [hup]; exact Bool.false_ne_true)]
      rw [hred]
      exact changes_nil_of_not_updated hin hup
    | true =>
      cases f with
      | zero =>
        have hred : ccLoopJoin n es 1 p = ccIterJoin n es p.1 p.2 := by
          rw [ccLoopJoin_one, if_pos hup]
        rw [hred, hup] at hstop
        cases hstop
      | succ f' =>
        have hred : ccLoopJoin n es (f' + 2) p = ccLoopJoin n es (f' + 1)
            (afterCond (ccIterJoin n es p.1 p.2).1, (ccIterJoin n es p.1 p.2).2) := by
          rw [ccLoopJoin_two, if_pos hup]
        rw [hred] at hstop ⊢
        exact ih _ rfl (Nat.succ_pos f') hstop

/-- An iteration fed by an empty stream does nothing. -/
lemma ccIterJoin_nil {n : Nat} {es : List (Node × Node)} {st : CCState}
    (h : st.updated = false) : ccIterJoin n es st [] = (st, []) := by
  have hcand : joinCandidates (symEdges es) ([] : List (Node × Nat)) = [] := rfl
  have hch : chList n (joinCandidates (symEdges es) []) st.component = [] := by
    rw [hcand, chList]
    refine List.filterMap_eq_nil_iff.2 (fun y _ => ?_)
    rfl
  rw [ccIterJoin_eq, hch]
  cases st with
  | mk comp up cnt =>
    simp only at h
    rw [h]
    rfl

/-- C8: after the loop has reached STOPPED because the Changed Flag was false,
one further iteration (fed, as in the dataflow loop, by the feedback stream of
the last iteration) leaves the state bit-for-bit unchanged and reports the
flag false again. -/
theorem c8_idempotent {n B : Nat} {es : List (Node × Node)} (hB : 0 < B)
    (hstop : (ccRunJoin n es B).1.updated = false) :
    ccIterJoin n es (ccRunJoin n es B).1 (ccRunJoin n es B).2
      = ((ccRunJoin n es B).1, []) := by
  have hnil := ccLoopJoin_ws_nil B (CCState.new n, initWorklist n) rfl hB hstop
  rw [show (ccRunJoin n es B).2 = [] from hnil]
  exact ccIterJoin_nil hstop

/-- C8 witness: the converged two-disjoint-edges run is idempotent. -/
theorem c8_witness :
    0 < 2 ∧ (ccRunJoin 4 [(0, 1), (2, 3)] 2).1.updated = false ∧
    ccIterJoin 4 [(0, 1), (2, 3)] (ccRunJoin 4 [(0, 1), (2, 3)] 2).1
        (ccRunJoin 4 [(0, 1), (2, 3)] 2).2
      = ((ccRunJoin 4 [(0, 1), (2, 3)] 2).1, []) :=
  ⟨by decide, by decide, c8_idempotent (by decide) (by decide)⟩

/-! ## Relating the loop to the iteration trace (for the stop conditions) -/

lemma ccPostFold_def (n : Nat) (es : List (Node × Node)) (k : Nat) :
    ccPostFold n es k
      = (ccIterJoin n es (ccStepN n es k).1 (ccStepN n es k).2).1 := rfl

/-- If the run ends with the flag true, no executed iteration had reported the
flag false: the budget was reached without convergence. -/
lemma ccLoopJoin_trace_budget {n : Nat} {es : List (Node × Node)} :
    ∀ fuel k, (ccLoopJoin n es fuel (ccStepN n es k)).1.updated = true →
      ∀ j, k ≤ j → j < k + fuel → (ccPostFold n es j).updated = true := by
  intro fuel
  induction fuel with
  | zero =>
    intro k h
    rw [show ccLoopJoin n es 0 (ccStepN n es k) = ccStepN n es k from rfl,
      ccStepN_updated] at h
    cases h
  | succ f ih =>
    intro k h j hkj hjk
    cases hup : (ccPostFold n es k).updated with
    | false =>
      have hred : ccLoopJoin n es (f + 1) (ccStepN n es k) = ccStepN n es (k + 1) := by
        cases f with
        | zero =>
          rw [ccLoopJoin_one, if_neg (by rw [← ccPostFold_def, hup]; exact Bool.false_ne_true)]
          rfl
        | succ f' =>
          rw [ccLoopJoin_two, if_neg (by rw [← ccPostFold_def, hup]; exact Bool.false_ne_true)]
          rfl
      rw [hred, ccStepN_updated] at h
      cases h
    | true =>
      rcases Nat.eq_or_lt_of_le hkj with rfl | hlt
      · exact hup
      · cases f with
        | zero => omega
        | succ f' =>
          have hred : ccLoopJoin n es (f' + 2) (ccStepN n es k)
              = ccLoopJoin n es (f' + 1) (ccStepN n es (k + 1)) := by
            rw [ccLoopJoin_two, if_pos (by rw [← ccPostFold_def, hup])]
            rfl
          rw [hred] at h
          exact ih (k + 1) h j hlt (by omega)

/-- If iteration `k + m` is the first whose fold reports the flag false, the
loop (given enough remaining budget) halts right there, returning the state
after the loop condition of that iteration. -/
lemma ccLoopJoin_trace_conv {n : Nat} {es : List (Node × Node)} :
    ∀ fuel k m, m < fuel → (ccPostFold n es (k + m)).updated = false →
      (∀ j, k ≤ j → j < k + m → (ccPostFold n es j).updated = true) →
      ccLoopJoin n es fuel (ccStepN n es k) = ccStepN n es (k + m + 1) := by
  intro fuel
  induction fuel with
  | zero => intro k m hm; omega
  | succ f ih =>
    intro k m hm hconv hprev
    cases m with
    | zero =>
      have hup : (ccPostFold n es k).updated = false := hconv
      have hred : ccLoopJoin n es (f + 1) (ccStepN n es k) = ccStepN n es (k + 1) := by
        cases f with
        | zero =>
          rw [ccLoopJoin_one, if_neg (by rw [← ccPostFold_def, hup]; exact Bool.false_ne_true)]
          rfl
        | succ f' =>
          rw [ccLoopJoin_two, if_neg (by rw [← ccPostFold_def, hup]; exact Bool.false_ne_true)]
          rfl
      rw [hred]
    | succ m' =>
      have hup : (ccPostFold n es k).updated = true :=
        hprev k (le_refl k) (by omega)
      cases f with
      | zero => omega
      | succ f' =>
        have hred : ccLoopJoin n es (f' + 2) (ccStepN n es k)
            = ccLoopJoin n es (f' + 1) (ccStepN n es (k + 1)) := by
          rw [ccLoopJoin_two, if_pos (by rw [← ccPostFold_def, hup])]
          rfl
        rw [hred]
        have hconv' : (ccPostFold n es (k + 1 + m')).updated = false := by
          rw [show k + 1 + m' = k + (m' + 1) from by omega]
          exact hconv
        have hprev' : ∀ j, k + 1 ≤ j → j < k + 1 + m' →
            (ccPostFold n es j).updated = true := by
          intro j h1 h2
          exact hprev j (by omega) (by omega)
        rw [ih (k + 1) m' (by omega) hconv' hprev']
        congr 1
        omega

/-- C7: the loop always halts within the budget.  (i) If the exposed state
still has the changed flag true, then every one of the `B` executed folds had
left the flag true — the halt came from the budget, with no earlier
convergence, and the caller receives the current (possibly non-fixpoint)
snapshot rather than an error.  (ii) If iteration `k < B` is the first whose
fold reports the flag false, the run halts right there.  (iii) Concretely,
budget 1 on the diameter-3 path halts at the budget with the flag still true
and a snapshot that a further iteration would still improve. -/
theorem c7_termination :
    (∀ (n : Nat) (es : List (Node × Node)) (B : Nat),
      (ccRunJoin n es B).1.updated = true →
        ∀ j, j < B → (ccPostFold n es j).updated = true) ∧
    (∀ (n : Nat) (es : List (Node × Node)) (B k : Nat), k < B →
      (ccPostFold n es k).updated = false →
      (∀ j, j < k → (ccPostFold n es j).updated = true) →
      ccRunJoin n es B = ccStepN n es (k + 1)) ∧
    ((ccRunJoin 4 [(0, 1), (1, 2), (2, 3)] 1).1
        = ⟨[0, 0, 1, 2], true, 0⟩ ∧
      (ccRunJoin 4 [(0, 1), (1, 2), (2, 3)] 2).1.component
        ≠ (ccRunJoin 4 [(0, 1), (1, 2), (2, 3)] 1).1.component) := by
  refine ⟨?_, ?_, by decide, by decide⟩
  · intro n es B h j hj
    exact ccLoopJoin_trace_budget B 0 h j (Nat.zero_le j) (by omega)
  · intro n es B k hk hconv hprev
    have h := ccLoopJoin_trace_conv B 0 k hk
      (by rw [Nat.zero_add]; exact hconv)
      (fun j _ hj => hprev j (by omega))
    rw [Nat.zero_add] at h
    exact h

/-- C7 witness: both stop conditions exercised on concrete runs — the
diameter-3 path with budget 1 halts at the budget with every fold flagged
true, and the two-disjoint-edges graph with budget 3 halts at its second
iteration, whose fold first reports the flag false. -/
theorem c7_witness :
    ((ccRunJoin 4 [(0, 1), (1, 2), (2, 3)] 1).1.updated = true ∧
      (∀ j, j < 1 → (ccPostFold 4 [(0, 1), (1, 2), (2, 3)] j).updated = true)) ∧
    (1 < 3 ∧ (ccPostFold 4 [(0, 1), (2, 3)] 1).updated = false ∧
      ccRunJoin 4 [(0, 1), (2, 3)] 3 = ccStepN 4 [(0, 1), (2, 3)] 2) :=
  ⟨⟨by decide,
    c7_termination.1 4 [(0, 1), (1, 2), (2, 3)] 1 (by decide)⟩,
   by decide, by decide,
    c7_termination.2.1 4 [(0, 1), (2, 3)] 3 1 (by decide) (by decide)
      (fun j hj => by interval_cases j; decide)⟩

/-! ## Strategy equivalence for connected components (C1) -/

/-- Per stream element, the broadcast generator's output is exactly the join
generator's output with the candidates `(y, c)` such that `y ≤ c` removed. -/
lemma shared_elem_eq (es : List (Node × Node)) (x : Node) (c : Nat) :
    ((adjList es x).filter (fun y => decide (c < y))).map (fun y => (y, c))
      = (((symEdges es).filter (fun e => e.1 == x)).map
          (fun e => (e.2, c))).filter (fun p => decide (p.2 < p.1)) := by
  rw [adjList, List.filter_map, List.map_map, List.filter_map]
  rfl

lemma joinCandidates_cons (esSym : List (Node × Node)) (xc : Node × Nat)
    (ws : List (Node × Nat)) :
    joinCandidates esSym (xc :: ws)
      = ((esSym.filter (fun e => e.1 == xc.1)).map (fun e => (e.2, xc.2)))
          ++ joinCandidates esSym ws := rfl

/-- When no adjacency lookup panics, the broadcast candidate batch is the join
candidate batch filtered by `candidate < target`. -/
lemma sharedCandidatesCC_eq {es : List (Node × Node)} :
    ∀ ws : List (Node × Nat), (∀ w ∈ ws, adjLookup es w.1 ≠ none) →
      sharedCandidatesCC es ws
        = some ((joinCandidates (symEdges es) ws).filter
            (fun p => decide (p.2 < p.1))) := by
  intro ws
  induction ws with
  | nil => intro _; rfl
  | cons xc rest ih =>
    intro hcov
    have h1 : adjLookup es xc.1 ≠ none := hcov xc (List.mem_cons_self xc rest)
    have h2 : adjLookup es xc.1 = some (adjList es xc.1) := by
      rw [adjLookup] at h1 ⊢
      by_cases hemp : (adjList es xc.1).isEmpty
      · rw [if_pos hemp] at h1
        exact absurd rfl h1
      · rw [if_neg hemp]
    have hrest := ih (fun w hw => hcov w (List.mem_cons_of_mem xc hw))
    calc sharedCandidatesCC es (xc :: rest)
        = some ((((adjList es xc.1).filter
              (fun y => decide (xc.2 < y))).map (fun y => (y, xc.2)))
            ++ (joinCandidates (symEdges es) rest).filter
              (fun p => decide (p.2 < p.1))) := by
          show (match adjLookup es xc.1, sharedCandidatesCC es rest with
            | some adj, some r =>
              some (((adj.filter (fun y => decide (xc.2 < y))).map
                (fun y => (y, xc.2))) ++ r)
            | _, _ => none) = _
          rw [h2, hrest]
      _ = some ((joinCandidates (symEdges es) (xc :: rest)).filter
            (fun p => decide (p.2 < p.1))) := by
          rw [joinCandidates_cons, List.filter_append,
            shared_elem_eq es xc.1 xc.2]

/-- Dropping the candidates `(y, c)` with `y ≤ c` changes neither the reduced
minimum nor the improvement-filter outcome for a node whose current label is
at most its id. -/
lemma changeFor_filtered {cands : List (Node × Nat)} {comp : List Nat}
    {y : Node} (hle : comp.getD y 0 ≤ y) :
    changeFor (cands.filter (fun p => decide (p.2 < p.1))) comp y
      = changeFor cands comp y := by
  have hS : candMin (cands.filter (fun p => decide (p.2 < p.1))) y
      = (((cands.filter (fun p => p.1 == y)).map (fun p => p.2)).filter
          (fun v => decide (v < y))).min? := by
    rw [candMin, List.filter_filter, List.filter_map, List.filter_filter]
    congr 1
    refine congrArg _ (List.filter_congr (fun p _ => ?_))
    simp only [Function.comp_apply]
    cases hb : (p.1 == y) with
    | true =>
      have hp : p.1 = y := by simpa using hb
      rw [hp, Bool.true_and, Bool.and_true]
    | false =>
      rw [Bool.false_and, Bool.and_false]
  cases hmin : ((cands.filter (fun p => p.1 == y)).map (fun p => p.2)).min? with
  | none =>
    have hnil := List.min?_eq_none_iff.1 hmin
    rw [changeFor, changeFor, hS, candMin, hmin, hnil]
    rfl
  | some c0 =>
    by_cases hlt : c0 < comp.getD y 0
    · have hcy : c0 < y := lt_of_lt_of_le hlt hle
      have hc0S := natMin?_mem hmin
      have hc0S' : c0 ∈ ((cands.filter (fun p => p.1 == y)).map
          (fun p => p.2)).filter (fun v => decide (v < y)) :=
        List.mem_filter.2 ⟨hc0S, by simpa using hcy⟩
      cases hmin' : (((cands.filter (fun p => p.1 == y)).map
          (fun p => p.2)).filter (fun v => decide (v < y))).min? with
      | none =>
        rw [List.min?_eq_none_iff.1 hmin'] at hc0S'
        cases hc0S'
      | some c1 =>
        have hc1 : c1 = c0 :=
          le_antisymm (natMin?_le hmin' hc0S')
            (natMin?_le hmin (List.mem_filter.1 (natMin?_mem hmin')).1)
        rw [changeFor, changeFor, hS, candMin, hmin, hmin', hc1]
    · rw [changeFor, changeFor, hS, candMin, hmin]
      cases hmin' : (((cands.filter (fun p => p.1 == y)).map
          (fun p => p.2)).filter (fun v => decide (v < y))).min? with
      | none =>
        show (none : Option (Node × Nat))
          = if c0 < comp.getD y 0 then some (y, c0) else none
        rw [if_neg hlt]
      | some c1 =>
        have hc1 : c0 ≤ c1 :=
          natMin?_le hmin (List.mem_filter.1 (natMin?_mem hmin')).1
        show (if c1 < comp.getD y 0 then some (y, c1) else none)
          = if c0 < comp.getD y 0 then some (y, c0) else none
        rw [if_neg hlt, if_neg (fun h => hlt (lt_of_le_of_lt hc1 h))]

lemma ccIterShared_some {n : Nat} {es : List (Node × Node)} {st : CCState}
    {ws cands : List (Node × Nat)} (h : sharedCandidatesCC es ws = some cands) :
    ccIterShared n es st ws =
      some (⟨applyChanges st.component ((reduceMin n cands).filter
            (fun p => decide (p.2 < st.component.getD p.1 0))),
          st.updated || !((reduceMin n cands).filter
            (fun p => decide (p.2 < st.component.getD p.1 0))).isEmpty,
          st.iteration_count⟩,
        (reduceMin n cands).filter
          (fun p => decide (p.2 < st.component.getD p.1 0))) := by
  rw [ccIterShared, h]

/-- On a state whose labels are bounded by the node ids, one broadcast
iteration agrees with one join iteration. -/
lemma ccIterShared_eq {n : Nat} {es : List (Node × Node)} {st : CCState}
    {ws : List (Node × Nat)} (hcov : ∀ w ∈ ws, adjLookup es w.1 ≠ none)
    (hle : ∀ i, i < n → st.component.getD i 0 ≤ i) :
    ccIterShared n es st ws = some (ccIterJoin n es st ws) := by
  have hch : chList n ((joinCandidates (symEdges es) ws).filter
        (fun p => decide (p.2 < p.1))) st.component
      = chList n (joinCandidates (symEdges es) ws) st.component := by
    rw [chList, chList]
    exact List.filterMap_congr
      (fun y hy => changeFor_filtered (hle y (List.mem_range.1 hy)))
  rw [ccIterShared_some (sharedCandidatesCC_eq ws hcov), ccIterJoin_eq,
    changes_eq, hch]

lemma ccLoopShared_zero (n : Nat) (es : List (Node × Node))
    (p : CCState × List (Node × Nat)) : ccLoopShared n es 0 p = some p := rfl

lemma ccLoopShared_one {n : Nat} {es : List (Node × Node)}
    {p : CCState × List (Node × Nat)} {q : CCState × List (Node × Nat)}
    (h : ccIterShared n es p.1 p.2 = some q) :
    ccLoopShared n es 1 p =
      if q.1.updated then some q else some (afterCond q.1, q.2) := by
  have hbody : ccLoopShared n es 1 p
      = (match ccIterShared n es p.1 p.2 with
        | none => none
        | some r => if r.1.updated then some r else some (afterCond r.1, r.2)) := by
    rw [ccLoopShared]
  rw [hbody, h]

lemma ccLoopShared_two {n : Nat} {es : List (Node × Node)} {f : Nat}
    {p : CCState × List (Node × Nat)} {q : CCState × List (Node × Nat)}
    (h : ccIterShared n es p.1 p.2 = some q) :
    ccLoopShared n es (f + 2) p =
      if q.1.updated then ccLoopShared n es (f + 1) (afterCond q.1, q.2)
      else some (afterCond q.1, q.2) := by
  have hbody : ccLoopShared n es (f + 2) p
      = (match ccIterShared n es p.1 p.2 with
        | none => none
        | some r =>
          if r.1.updated then ccLoopShared n es (f + 1) (afterCond r.1, r.2)
          else some (afterCond r.1, r.2)) := by
    rw [ccLoopShared]
  rw [hbody, h]

/-- On a graph in which every node of `[0, n)` has an incident edge, the
broadcast loop never panics and tracks the join loop exactly. -/
lemma ccLoopShared_eq {n : Nat} {es : List (Node × Node)}
    (hcovAll : ∀ x, x < n → adjLookup es x ≠ none) :
    ∀ fuel (p : CCState × List (Node × Nat)),
      p.1.component.length = n →
      (∀ i, i < n → p.1.component.getD i 0 ≤ i) →
      (∀ w ∈ p.2, w.1 < n) →
      ccLoopShared n es fuel p = some (ccLoopJoin n es fuel p) := by
  intro fuel
  induction fuel with
  | zero => intro p _ _ _; rfl
  | succ f ih =>
    intro p hlen hle hws
    have hcov : ∀ w ∈ p.2, adjLookup es w.1 ≠ none :=
      fun w hw => hcovAll w.1 (hws w hw)
    have hiter := ccIterShared_eq (n := n) hcov hle
    have hlen' : (ccIterJoin n es p.1 p.2).1.component.length = n := by
      rw [ccIterJoin_length]
      exact hlen
    have hle' : ∀ i, i < n →
        (ccIterJoin n es p.1 p.2).1.component.getD i 0 ≤ i :=
      fun i hi => le_trans (ccIterJoin_mono n es p.1 p.2 i) (hle i hi)
    have hws' : ∀ w ∈ (ccIterJoin n es p.1 p.2).2, w.1 < n := by
      intro w hw
      rw [ccIterJoin_eq] at hw
      exact (chList_fst hw).1
    cases hup : (ccIterJoin n es p.1 p.2).1.updated with
    | false =>
      cases f with
      | zero =>
        rw [ccLoopShared_one hiter, ccLoopJoin_one,
          if_neg (by rw [hup]; exact Bool.false_ne_true),
          if_neg (by rw [hup]; exact Bool.false_ne_true)]
      | succ f' =>
        rw [ccLoopShared_two hiter, ccLoopJoin_two,
          if_neg (by rw [hup]; exact Bool.false_ne_true),
          if_neg (by rw [hup]; exact Bool.false_ne_true)]
    | true =>
      cases f with
      | zero =>
        rw [ccLoopShared_one hiter, ccLoopJoin_one, if_pos hup, if_pos hup]
      | succ f' =>
        rw [ccLoopShared_two hiter, ccLoopJoin_two, if_pos hup, if_pos hup]
        exact ih (afterCond (ccIterJoin n es p.1 p.2).1, (ccIterJoin n es p.1 p.2).2)
          hlen' hle' hws'

/-! ## Strategy equivalence for PageRank (C1) -/

/-- The two PageRank mass-distribution generators emit identical candidate
lists (the join drops exactly the elements whose lookup the broadcast variant
skips with `else vec![]`). -/
lemma prCandidates_eq (es : List (Node × Node)) :
    ∀ items : List PRItem,
      prCandidatesShared es items
        = prCandidatesJoin es (items.map (fun t => (t.1, t.2.2))) := by
  intro items
  induction items with
  | nil => rfl
  | cons t rest ih =>
    rw [prCandidatesShared, prCandidatesJoin, List.map_cons,
      List.flatMap_cons, List.flatMap_cons]
    rw [prCandidatesShared, prCandidatesJoin] at ih
    rw [ih]

lemma prIter_eq (n : Nat) (es : List (Node × Node)) (prev : ℚ)
    (items : List PRItem) :
    prIterShared n es prev items = prIterJoin n es prev items := by
  rw [prIterShared, prIterJoin, prCandidates_eq]

lemma prLoopJoin_one (n : Nat) (es : List (Node × Node)) (prev : ℚ)
    (items : List PRItem) :
    prLoopJoin n es 1 prev items =
      if (prIterJoin n es prev items).2.2 then (prIterJoin n es prev items).2.1
      else (prIterJoin n es prev items).2.1 := by
  rw [prLoopJoin]

lemma prLoopJoin_two (n : Nat) (es : List (Node × Node)) (f : Nat) (prev : ℚ)
    (items : List PRItem) :
    prLoopJoin n es (f + 2) prev items =
      if (prIterJoin n es prev items).2.2 then
        prLoopJoin n es (f + 1) (prIterJoin n es prev items).1
          (prIterJoin n es prev items).2.1
      else (prIterJoin n es prev items).2.1 := by
  rw [prLoopJoin]

lemma prLoopShared_one (n : Nat) (es : List (Node × Node)) (prev : ℚ)
    (items : List PRItem) :
    prLoopShared n es 1 prev items =
      if (prIterShared n es prev items).2.2 then (prIterShared n es prev items).2.1
      else (prIterShared n es prev items).2.1 := by
  rw [prLoopShared]

lemma prLoopShared_two (n : Nat) (es : List (Node × Node)) (f : Nat) (prev : ℚ)
    (items : List PRItem) :
    prLoopShared n es (f + 2) prev items =
      if (prIterShared n es prev items).2.2 then
        prLoopShared n es (f + 1) (prIterShared n es prev items).1
          (prIterShared n es prev items).2.1
      else (prIterShared n es prev items).2.1 := by
  rw [prLoopShared]

/-- The two PageRank loops coincide for every budget. -/
lemma prLoop_eq (n : Nat) (es : List (Node × Node)) :
    ∀ fuel (prev : ℚ) (items : List PRItem),
      prLoopShared n es fuel prev items = prLoopJoin n es fuel prev items := by
  intro fuel
  induction fuel with
  | zero => intro prev items; rfl
  | succ f ih =>
    intro prev items
    cases f with
    | zero => rw [prLoopShared_one, prLoopJoin_one, prIter_eq]
    | succ f' =>
      rw [prLoopShared_two, prLoopJoin_two, prIter_eq]
      cases hb : (prIterJoin n es prev items).2.2 with
      | false =>
        rw [if_neg Bool.false_ne_true, if_neg Bool.false_ne_true]
      | true =>
        rw [if_pos rfl, if_pos rfl, ih]

/-- C1 (amended): (i) for every graph in which each node of `[0, N)` has at
least one incident edge (so that the broadcast adjacency lookup never
panics), the broadcast connected-components run returns exactly the join
run's final Global State; (ii) the two PageRank runs coincide for every
input; (iii) within each PageRank iteration the broadcast generator emits
exactly the join generator's candidate list.  For connected components the
per-iteration raw candidate multisets do NOT coincide — the broadcast
generator pre-drops candidates `(y, c)` with `y ≤ c` — they agree only after
the improvement filter, which is what makes the final states equal. -/
theorem c1_amended_equiv :
    (∀ (n : Nat) (es : List (Node × Node)) (B : Nat),
      (∀ x, x < n → adjLookup es x ≠ none) →
      ccRunShared n es B = some (ccRunJoin n es B)) ∧
    (∀ (n : Nat) (es : List (Node × Node)) (B : Nat),
      prRunShared n es B = prRunJoin n es B) ∧
    (∀ (es : List (Node × Node)) (items : List PRItem),
      prCandidatesShared es items
        = prCandidatesJoin es (items.map (fun t => (t.1, t.2.2)))) := by
  refine ⟨?_, ?_, prCandidates_eq⟩
  · intro n es B hcov
    rw [ccRunShared, ccRunJoin]
    refine ccLoopShared_eq hcov B (CCState.new n, initWorklist n)
      (List.length_range n) (fun i hi => ?_) (fun w hw => (mem_initWorklist.1 hw).1)
    rw [CCState.new, getD_range hi]
  · intro n es B
    rw [prRunShared, prRunJoin, prLoop_eq]

/-- C1 counterexample: on the single edge `(0, 1)` over 2 nodes, the first
iteration's join candidate batch is `[(1, 0), (0, 1)]` while the broadcast
batch is `[(1, 0)]` — the `(node, value)` multisets differ (the claimed
per-iteration multiset equality fails for connected components). -/
theorem c1_counterexample :
    joinCandidates (symEdges [(0, 1)]) (initWorklist 2) = [(1, 0), (0, 1)] ∧
    sharedCandidatesCC [(0, 1)] (initWorklist 2) = some [(1, 0)] ∧
    ((joinCandidates (symEdges [(0, 1)]) (initWorklist 2) : List (Node × Nat))
        : Multiset (Node × Nat))
      ≠ (([(1, 0)] : List (Node × Nat)) : Multiset (Node × Nat)) := by
  refine ⟨by decide, by decide, fun h => ?_⟩
  rw [show joinCandidates (symEdges [(0, 1)]) (initWorklist 2)
    = [(1, 0), (0, 1)] from by decide] at h
  have hc := congrArg Multiset.card h
  rw [Multiset.coe_card, Multiset.coe_card] at hc
  cases hc

/-- C1 witness: both strategy-equivalence statements applied to concrete
inputs — the two-disjoint-edges graph (every node covered by an edge) for
connected components, and a 2-cycle for PageRank. -/
theorem c1_witness :
    (∀ x, x < 4 → adjLookup [(0, 1), (2, 3)] x ≠ none) ∧
    ccRunShared 4 [(0, 1), (2, 3)] 3 = some (ccRunJoin 4 [(0, 1), (2, 3)] 3) ∧
    prRunShared 2 [(0, 1), (1, 0)] 2 = prRunJoin 2 [(0, 1), (1, 0)] 2 ∧
    prCandidatesShared [(0, 1)] (prInit 2)
      = prCandidatesJoin [(0, 1)] ((prInit 2).map (fun t => (t.1, t.2.2))) :=
  ⟨by decide,
    c1_amended_equiv.1 4 [(0, 1), (2, 3)] 3 (by decide),
    c1_amended_equiv.2.1 2 [(0, 1), (1, 0)] 2,
    c1_amended_equiv.2.2 [(0, 1)] (prInit 2)⟩

/-- C9 (amended): connected components inserts both directed pairs `(u,v)`
and `(v,u)` at ingestion, in both strategies (the join stream and the
replicated adjacency map are each built from the symmetrized stream);
PageRank, in both variants, builds its adjacency from the raw records only —
just `(u, v)` is inserted, so its neighbor relation is directed. -/
theorem c9_amended_edges :
    (∀ (es : List (Node × Node)) (u v : Node), (u, v) ∈ es →
      (u, v) ∈ symEdges es ∧ (v, u) ∈ symEdges es) ∧
    (∀ (es : List (Node × Node)) (u v : Node), (u, v) ∈ es → v ∈ prAdj es u) ∧
    prAdj [(0, 1)] 1 = [] := by
  refine ⟨fun es u v h => symEdges_both h, ?_, by decide⟩
  intro es u v h
  rw [prAdj]
  simp only [List.mem_map, List.mem_filter, beq_iff_eq]
  exact ⟨(u, v), ⟨h, rfl⟩, rfl⟩

/-- C9 counterexample: for the single record `(0, 1)`, the connected
components edge store holds both `(0, 1)` and `(1, 0)`, but the PageRank
adjacency holds only `0 ↦ [1]`: node 1 has no entry, so the reverse pair
`(1, 0)` was never inserted before delta generation. -/
theorem c9_counterexample :
    symEdges [(0, 1)] = [(0, 1), (1, 0)] ∧
    prAdj [(0, 1)] 0 = [1] ∧ prAdj [(0, 1)] 1 = [] ∧
    prAdjLookup [(0, 1)] 1 = none := by
  decide

/-- C9 witness: the amended statement applied to the record `(0, 1)`. -/
theorem c9_witness :
    ((0, 1) ∈ ([(0, 1)] : List (Node × Node))) ∧
    ((0, 1) ∈ symEdges [(0, 1)] ∧ (1, 0) ∈ symEdges [(0, 1)]) ∧
    (1 : Node) ∈ prAdj [(0, 1)] 0 :=
  ⟨by decide, c9_amended_edges.1 [(0, 1)] 0 1 (by decide),
    c9_amended_edges.2.1 [(0, 1)] 0 1 (by decide)⟩

/-- C10: the broadcast connected-components adjacency lookup succeeds for
every node with at least one incident edge in the input; for a node that
appears in the node listing but in no edge record, the lookup's failure
(panic) branch is reachable — the broadcast generator can produce no value
(`none`) — whereas the join generator simply emits no candidate for such a
node. -/
theorem c10_lookup :
    (∀ (es : List (Node × Node)) (x : Node),
      (∃ e ∈ es, e.1 = x ∨ e.2 = x) → adjLookup es x ≠ none) ∧
    (adjLookup [(0, 1)] 2 = none ∧
      sharedCandidatesCC [(0, 1)] [(2, 2)] = none ∧
      joinCandidates (symEdges [(0, 1)]) [(2, 2)] = []) := by
  refine ⟨?_, by decide, by decide, by decide⟩
  rintro es x ⟨e, he, hx⟩
  have hmem : ∃ y, (x, y) ∈ symEdges es := by
    rcases hx with h1 | h2
    · exact ⟨e.2, mem_symEdges.2 ⟨e, he, Or.inl ⟨h1, rfl⟩⟩⟩
    · exact ⟨e.1, mem_symEdges.2 ⟨e, he, Or.inr ⟨rfl, h2⟩⟩⟩
  obtain ⟨y, hy⟩ := hmem
  have hne : adjList es x ≠ [] := by
    intro hnil
    have hmem2 : y ∈ adjList es x := by
      rw [adjList]
      simp only [List.mem_map, List.mem_filter, beq_iff_eq]
      exact ⟨(x, y), ⟨hy, rfl⟩, rfl⟩
    rw [hnil] at hmem2
    cases hmem2
  rw [adjLookup, if_neg (by simpa [List.isEmpty_iff] using hne)]
  exact Option.some_ne_none _

/-- C10 witness: node 0 has an incident edge in `[(0, 1)]`, and its lookup
indeed succeeds. -/
theorem c10_witness :
    (∃ e ∈ ([(0, 1)] : List (Node × Node)), e.1 = 0 ∨ e.2 = 0) ∧
    adjLookup [(0, 1)] 0 ≠ none :=
  ⟨⟨(0, 1), by decide, Or.inl rfl⟩,
    c10_lookup.1 [(0, 1)] 0 ⟨(0, 1), by decide, Or.inl rfl⟩⟩

/-! ## PageRank fold step: the rich_map prev slot and the changed flag (C2, C3) -/

/-- C2, evaluated at the failing input (N = 2, edges `(0,1)` and `(1,0)`,
uniform ranks `1/2`, one iteration).  Every new rank is again `1/2`, yet the
emitted triple for node 0 carries `prevRank = 0` — the `rich_map`-local
`prev` of the previously processed element, not node 0's own previous rank
`1/2` — and the changed flag is set true although no node's rank changed
relative to its own previous rank (`|new - old| / new = 0 ≤ EPS` for every
node), contradicting the code's own comment "a new iteration is needed if at
least one page's rank has changed". -/
theorem c2_eval_bug :
    prRunJoin 2 [(0, 1), (1, 0)] 1 = [(0, 0, 1 / 2), (1, 1 / 2, 1 / 2)] ∧
    prInit 2 = [(0, 0, 1 / 2), (1, 0, 1 / 2)] ∧
    ((0 : ℚ) ≠ 1 / 2) ∧
    (prIterJoin 2 [(0, 1), (1, 0)] 0 (prInit 2)).2.2 = true ∧
    (∀ t ∈ prRunJoin 2 [(0, 1), (1, 0)] 1, ¬(|t.2.2 - 1 / 2| / t.2.2 > EPS)) := by
  have hrun : prRunJoin 2 [(0, 1), (1, 0)] 1
      = [(0, 0, 1 / 2), (1, 1 / 2, 1 / 2)] := by
    norm_num [prRunJoin, prLoopJoin, prIterJoin, prInit, prCandidatesJoin,
      prAdjLookup, prAdj, prSums, prRich, prChangedFold, symEdges,
      List.range_succ, EPS, DAMPENING, abs_of_nonneg,
      List.filter_cons, List.filterMap_cons, List.flatMap_cons, List.any_cons]
  refine ⟨hrun, ?_, by norm_num, ?_, ?_⟩
  · norm_num [prInit, List.range_succ]
  · norm_num [prIterJoin, prInit, prCandidatesJoin,
      prAdjLookup, prAdj, prSums, prRich, prChangedFold,
      List.range_succ, EPS, DAMPENING, abs_of_nonneg,
      List.filter_cons, List.filterMap_cons, List.flatMap_cons, List.any_cons]
  · intro t ht
    rw [hrun] at ht
    simp only [List.mem_cons, List.not_mem_nil, or_false] at ht
    rcases ht with rfl | rfl
    · norm_num [EPS]
    · norm_num [EPS]

lemma mem_prCandidatesJoin_snd {es : List (Node × Node)}
    {pairs : List (Node × ℚ)} {p : Node × ℚ}
    (h : p ∈ prCandidatesJoin es pairs) : p.1 ∈ es.map Prod.snd := by
  rw [prCandidatesJoin] at h
  rw [List.mem_flatMap] at h
  obtain ⟨xr, _, hp⟩ := h
  cases hlk : prAdjLookup es xr.1 with
  | none => rw [hlk] at hp; cases hp
  | some adj =>
    rw [hlk] at hp
    have hadj : adj = prAdj es xr.1 := by
      rw [prAdjLookup] at hlk
      by_cases hemp : (prAdj es xr.1).isEmpty
      · rw [if_pos hemp] at hlk; cases hlk
      · rw [if_neg hemp] at hlk
        exact (Option.some.injEq .. ▸ hlk).symm
    rw [List.mem_map] at hp
    obtain ⟨y, hy, rfl⟩ := hp
    rw [hadj, prAdj] at hy
    rw [List.mem_map] at hy
    obtain ⟨e, he, rfl⟩ := hy
    exact List.mem_map_of_mem Prod.snd (List.mem_filter.1 he).1

lemma mem_prSums_cand {n : Nat} {cands : List (Node × ℚ)} {q : Node × ℚ}
    (h : q ∈ prSums n cands) : ∃ p ∈ cands, p.1 = q.1 := by
  rw [prSums, List.mem_filterMap] at h
  obtain ⟨y, _, hy⟩ := h
  by_cases hemp : ((cands.filter (fun p => p.1 == y)).map
      (fun p => p.2)).isEmpty
  · rw [if_pos hemp] at hy; cases hy
  · rw [if_neg hemp] at hy
    have hq1 : q.1 = y := by
      have := (Option.some.injEq .. ▸ hy)
      rw [← this]
    cases hfil : cands.filter (fun p => p.1 == y) with
    | nil => rw [hfil] at hemp; exact absurd rfl hemp
    | cons hd tl =>
      have hhd : hd ∈ cands.filter (fun p => p.1 == y) := by
        rw [hfil]; exact List.mem_cons_self hd tl
      have h1 := List.mem_filter.1 hhd
      exact ⟨hd, h1.1, by rw [hq1]; simpa using h1.2⟩

lemma prRich_mem {n : Nat} :
    ∀ (sums : List (Node × ℚ)) (prev : ℚ) (t : PRItem),
      t ∈ (prRich n prev sums).2 → ∃ s ∈ sums, t.1 = s.1 := by
  intro sums
  induction sums with
  | nil => intro prev t ht; cases ht
  | cons hd tl ih =>
    intro prev t ht
    obtain ⟨x, s⟩ := hd
    rw [prRich] at ht
    rcases List.mem_cons.1 ht with rfl | htl
    · exact ⟨(x, s), List.mem_cons_self _ _, rfl⟩
    · obtain ⟨s', hs', h1⟩ := ih _ t htl
      exact ⟨s', List.mem_cons_of_mem _ hs', h1⟩

/-- Every element of a PageRank iteration's output received inbound mass:
its node is the target of some directed edge record. -/
lemma prIterJoin_out_targets {n : Nat} {es : List (Node × Node)} {prev : ℚ}
    {items : List PRItem} :
    ∀ t ∈ (prIterJoin n es prev items).2.1, t.1 ∈ es.map Prod.snd := by
  intro t ht
  have ht' : t ∈ (prRich n prev (prSums n (prCandidatesJoin es
      (items.map (fun s => (s.1, s.2.2)))))).2 := ht
  obtain ⟨s, hs, h1⟩ := prRich_mem _ _ t ht'
  obtain ⟨p, hp, h2⟩ := mem_prSums_cand hs
  have := mem_prCandidatesJoin_snd hp
  rwa [h2, ← h1] at this

lemma prLoopJoin_out {n : Nat} {es : List (Node × Node)} :
    ∀ fuel (prev : ℚ) (items : List PRItem), 0 < fuel →
      ∀ t ∈ prLoopJoin n es fuel prev items, t.1 ∈ es.map Prod.snd := by
  intro fuel
  induction fuel with
  | zero => intro prev items h0; cases h0
  | succ f ih =>
    intro prev items _
    cases f with
    | zero =>
      rw [prLoopJoin_one, ite_self]
      exact fun t ht => prIterJoin_out_targets t ht
    | succ f' =>
      rw [prLoopJoin_two]
      cases hb : (prIterJoin n es prev items).2.2 with
      | false =>
        rw [if_neg Bool.false_ne_true]
        exact fun t ht => prIterJoin_out_targets t ht
      | true =>
        rw [if_pos rfl]
        exact ih _ _ (Nat.succ_pos f')

/-- C3 (amended): a node that receives no inbound candidate in an iteration
is simply absent from that iteration's output (the PageRank loop keeps no
per-node global state, so nothing retains its prior rank), and any run of at
least one iteration emits triples only for nodes that are the target of some
edge record — a node with zero inbound edges is absent from the final output,
instead of being present at the dampening floor. -/
theorem c3_amended_dropped :
    (∀ (n : Nat) (es : List (Node × Node)) (prev : ℚ) (items : List PRItem)
        (x : Node),
      x ∉ (prCandidatesJoin es (items.map (fun t => (t.1, t.2.2)))).map Prod.fst →
      ∀ t ∈ (prIterJoin n es prev items).2.1, t.1 ≠ x) ∧
    (∀ (n : Nat) (es : List (Node × Node)) (B : Nat), 0 < B →
      ∀ t ∈ prRunJoin n es B, t.1 ∈ es.map Prod.snd) := by
  constructor
  · intro n es prev items x hx t ht heq
    have ht' : t ∈ (prRich n prev (prSums n (prCandidatesJoin es
        (items.map (fun s => (s.1, s.2.2)))))).2 := ht
    obtain ⟨s, hs, h1⟩ := prRich_mem _ _ t ht'
    obtain ⟨p, hp, h2⟩ := mem_prSums_cand hs
    apply hx
    have hp1 : p.1 = x := by
      rw [h2, ← h1]
      exact heq
    rw [← hp1]
    exact List.mem_map_of_mem Prod.fst hp
  · intro n es B hB
    exact prLoopJoin_out B 0 (prInit n) hB

/-- C3 counterexample: on nodes `{0,1,2}` with directed records `(0,1)`,
`(1,2)`, `(2,1)`, node 0 has zero inbound edges and out-degree 1.  After a
2-iteration run the output is `[(1, 1/3, 1/3), (2, 1/3, 689/1200)]`: node 0
is absent — it neither kept its prior rank nor converged to the dampening
floor `(1 - 0.85)/3`, contradicting the claim that such a node remains
present. -/
theorem c3_counterexample :
    prRunJoin 3 [(0, 1), (1, 2), (2, 1)] 2
      = [(1, 1 / 3, 1 / 3), (2, 1 / 3, 689 / 1200)] ∧
    ((0 : Node) ∉ ([(0, 1), (1, 2), (2, 1)] : List (Node × Node)).map Prod.snd) ∧
    prAdj [(0, 1), (1, 2), (2, 1)] 0 = [1] ∧
    (∀ t ∈ prRunJoin 3 [(0, 1), (1, 2), (2, 1)] 2, t.1 ≠ 0) := by
  have hrun : prRunJoin 3 [(0, 1), (1, 2), (2, 1)] 2
      = [(1, 1 / 3, 1 / 3), (2, 1 / 3, 689 / 1200)] := by
    norm_num [prRunJoin, prLoopJoin, prIterJoin, prInit, prCandidatesJoin,
      prAdjLookup, prAdj, prSums, prRich, prChangedFold, symEdges,
      List.range_succ, EPS, DAMPENING, abs_of_nonneg,
      List.filter_cons, List.filterMap_cons, List.flatMap_cons, List.any_cons]
  refine ⟨hrun, by decide, by decide, ?_⟩
  intro t ht
  rw [hrun] at ht
  simp only [List.mem_cons, List.not_mem_nil, or_false] at ht
  rcases ht with rfl | rfl
  · decide
  · decide

/-- C3 witness: the amended statement applied to the counterexample graph —
node 0 receives no candidate in the first iteration and is absent from its
output, and the 2-iteration run emits only edge-target nodes. -/
theorem c3_witness :
    ((0 : Node) ∉ (prCandidatesJoin [(0, 1), (1, 2), (2, 1)]
        ((prInit 3).map (fun t => (t.1, t.2.2)))).map Prod.fst) ∧
    (∀ t ∈ (prIterJoin 3 [(0, 1), (1, 2), (2, 1)] 0 (prInit 3)).2.1, t.1 ≠ 0) ∧
    0 < 2 ∧
    (∀ t ∈ prRunJoin 3 [(0, 1), (1, 2), (2, 1)] 2,
      t.1 ∈ ([(0, 1), (1, 2), (2, 1)] : List (Node × Node)).map Prod.snd) := by
  have hnot : (0 : Node) ∉ (prCandidatesJoin [(0, 1), (1, 2), (2, 1)]
      ((prInit 3).map (fun t => (t.1, t.2.2)))).map Prod.fst := by
    have hcand : (prCandidatesJoin [(0, 1), (1, 2), (2, 1)]
        ((prInit 3).map (fun t => (t.1, t.2.2)))).map Prod.fst = [1, 2, 1] := by
      norm_num [prCandidatesJoin, prInit, prAdjLookup, prAdj,
        List.range_succ, List.filter_cons, List.flatMap_cons]
    rw [hcand]
    decide
  exact ⟨hnot,
    c3_amended_dropped.1 3 [(0, 1), (1, 2), (2, 1)] 0 (prInit 3) 0 hnot,
    by decide,
    c3_amended_dropped.2 3 [(0, 1), (1, 2), (2, 1)] 2 (by decide)⟩
